import Mathlib

namespace Pgm2

/-!
Shallow embedding of the security / inter-processor-communication subsystem
of the PGM2 arcade driver (src/mame/drivers/pgm2.cpp), together with proofs
of the specified properties.  Machine integers are modelled as `Nat` with
explicit masking where the C code truncates.
-/

/-- MAME `util::bitswap`: assemble a word from the listed source bits of `x`,
most-significant first.  `bitswap x (b :: bs) = (BIT x b <<< bs.length) ||| bitswap x bs`,
exactly the C++ recursion `(BIT(val, b) << sizeof...(c)) | bitswap(val, c...)`. -/
def bitswap (x : Nat) : List Nat → Nat
  | [] => 0
  | b :: bs => (((x >>> b) &&& 1) <<< bs.length) ||| bitswap x bs

/-- MAME `COMBINE_DATA` on a 32-bit handler:
`*ptr = (*ptr & ~mem_mask) | (data & mem_mask)`, with the complement taken
within 32 bits. -/
def combineData (old data memMask : Nat) : Nat :=
  (old &&& (0xffffffff ^^^ memMask)) ||| (data &&& memMask)

/-! ## Decryption trigger (`pgm2_state::encryption_do_w`)

The program-ROM cipher itself (`igs036_decryptor::decrypter_rom`) lives
outside this driver file; the spec treats it as an opaque keyed block cipher
parameterized by the 256-byte table, so the embedding takes the cipher as a
function argument and the trigger logic is proved for every such cipher. -/

structure DecryptState where
  encryption_table : List Nat
  user1 : List Nat
  has_decrypted : Nat
  deriving DecidableEq, Repr

/-- `pgm2_state::encryption_do_w`: on write, if `m_has_decrypted == 0`,
construct a decryptor from the current encryption table, decrypt the
program-ROM region `user1` in place, and set `m_has_decrypted = 1`;
otherwise do nothing.  `decrypter` stands for
`igs036_decryptor(m_encryption_table).decrypter_rom`. -/
def encryption_do_w (decrypter : List Nat → List Nat → List Nat)
    (s : DecryptState) : DecryptState :=
  if s.has_decrypted = 0 then
    { s with user1 := decrypter s.encryption_table s.user1, has_decrypted := 1 }
  else
    s

/-! ## Sprite key deriver (`pgm2_state::sprite_encryption_w`) -/

structure SpriteKeyState where
  spritekey : Nat
  realspritekey : Nat
  sprite_predecrypted : Nat
  deriving DecidableEq, Repr

/-- The bit list `0, 1, ..., 31` passed to `BITSWAP32` in
`sprite_encryption_w`; listing the source bits from position 31 down to 0
this way is a full 32-bit bit-order reversal. -/
def rev32bits : List Nat :=
  [0, 1, 2, 3, 4, 5, 6, 7, 8, 9, 10, 11, 12, 13, 14, 15,
   16, 17, 18, 19, 20, 21, 22, 23, 24, 25, 26, 27, 28, 29, 30, 31]

/-- `pgm2_state::sprite_encryption_w`: `COMBINE_DATA(&m_spritekey)`, then if
`!m_sprite_predecrypted`, recompute
`m_realspritekey = BITSWAP32(m_spritekey ^ 0x90055555, 0, 1, ..., 31)`. -/
def sprite_encryption_w (data memMask : Nat) (s : SpriteKeyState) : SpriteKeyState :=
  let k := combineData s.spritekey data memMask
  if s.sprite_predecrypted = 0 then
    { s with spritekey := k, realspritekey := bitswap (k ^^^ 0x90055555) rev32bits }
  else
    { s with spritekey := k }

/-! ## Graphics-region decoders (`iga_u16_decode`, `iga_u12_decode`,
`sprite_colour_decode`, `decrypt_kov3_module`)

ROM regions are modelled as lists of 16-bit words (the C code casts the byte
buffer to `uint16_t*` and iterates `i < len/2`). -/

/-- The bit list `8,9,...,15,0,1,...,7` used by both iga decoders: each
byte has its own bits reversed in place. -/
def byteRevBits : List Nat := [8, 9, 10, 11, 12, 13, 14, 15, 0, 1, 2, 3, 4, 5, 6, 7]

/-- Per-word XOR mask of `iga_u16_decode`: start from `ixor` and accumulate a
fixed constant for each set bit of `i >> 1`. -/
def iga_u16_xor (ixor i : Nat) : Nat :=
  let b := i >>> 1
  let x := ixor
  let x := if b &&& 0x000001 ≠ 0 then x ^^^ 0x0010 else x
  let x := if b &&& 0x000002 ≠ 0 then x ^^^ 0x2004 else x
  let x := if b &&& 0x000004 ≠ 0 then x ^^^ 0x0801 else x
  let x := if b &&& 0x000008 ≠ 0 then x ^^^ 0x0300 else x
  let x := if b &&& 0x000010 ≠ 0 then x ^^^ 0x0080 else x
  let x := if b &&& 0x000020 ≠ 0 then x ^^^ 0x0020 else x
  let x := if b &&& 0x000040 ≠ 0 then x ^^^ 0x4008 else x
  let x := if b &&& 0x000080 ≠ 0 then x ^^^ 0x1002 else x
  let x := if b &&& 0x000100 ≠ 0 then x ^^^ 0x0400 else x
  let x := if b &&& 0x000200 ≠ 0 then x ^^^ 0x0040 else x
  let x := if b &&& 0x000400 ≠ 0 then x ^^^ 0x8000 else x
  x

/-- Per-word XOR mask of `iga_u12_decode` (the `0x0000` rows of the C switch
are kept as no-op XORs). -/
def iga_u12_xor (ixor i : Nat) : Nat :=
  let b := i >>> 1
  let x := ixor
  let x := if b &&& 0x000001 ≠ 0 then x ^^^ 0x9004 else x
  let x := if b &&& 0x000002 ≠ 0 then x ^^^ 0x0028 else x
  let x := if b &&& 0x000004 ≠ 0 then x ^^^ 0x0182 else x
  let x := if b &&& 0x000008 ≠ 0 then x ^^^ 0x0010 else x
  let x := if b &&& 0x000010 ≠ 0 then x ^^^ 0x2040 else x
  let x := if b &&& 0x000020 ≠ 0 then x ^^^ 0x0801 else x
  let x := if b &&& 0x000040 ≠ 0 then x ^^^ 0x0000 else x
  let x := if b &&& 0x000080 ≠ 0 then x ^^^ 0x0000 else x
  let x := if b &&& 0x000100 ≠ 0 then x ^^^ 0x4000 else x
  let x := if b &&& 0x000200 ≠ 0 then x ^^^ 0x0600 else x
  let x := if b &&& 0x000400 ≠ 0 then x ^^^ 0x0000 else x
  x

/-- `iga_u16_decode`: for every odd word index (`for (i = 1; i < len/2; i += 2)`),
XOR with the positional mask and apply `BITSWAP16(.., 8,9,...,15,0,1,...,7)`. -/
def iga_u16_decode (rom : List Nat) (ixor : Nat) : List Nat :=
  rom.mapIdx fun i w =>
    if i % 2 = 1 then bitswap (w ^^^ iga_u16_xor ixor i) byteRevBits else w

/-- `iga_u12_decode`: same shape but over even word indices
(`for (i = 0; i < len/2; i += 2)`). -/
def iga_u12_decode (rom : List Nat) (ixor : Nat) : List Nat :=
  rom.mapIdx fun i w =>
    if i % 2 = 0 then bitswap (w ^^^ iga_u12_xor ixor i) byteRevBits else w

/-- The fixed 16-bit permutation of `sprite_colour_decode`:
`BITSWAP16(w, 15,14, 13,12,11, 5,4,3, 7,6, 10,9,8, 2,1,0)`. -/
def colourBits : List Nat := [15, 14, 13, 12, 11, 5, 4, 3, 7, 6, 10, 9, 8, 2, 1, 0]

/-- Word transform of `sprite_colour_decode`. -/
def colour_word (w : Nat) : Nat := bitswap w colourBits

/-- `sprite_colour_decode`: apply the fixed permutation to every word of the
region (`for (i = 0; i < len/2; i++)`). -/
def sprite_colour_decode (rom : List Nat) : List Nat :=
  rom.map colour_word

/-- `pgm2_state::decrypt_kov3_module`: `buffer[i] = src[i^addrxor]^dataxor`
over the whole region, then copy back.  Out-of-range source indices (which
real use never produces) read as 0. -/
def decrypt_kov3_module (addrxor dataxor : Nat) (rom : List Nat) : List Nat :=
  (List.range rom.length).map fun i => rom.getD (i ^^^ addrxor) 0 ^^^ dataxor

/-! ## Driver-init pipelines (`common_encryption_init`, ddpdojh / kov3 inits)

The per-title program-ROM cipher (`igs036_decryptor(<key>).decrypter_rom`,
with keys from an external table file) is again passed as a function. -/

structure Regions where
  user1 : List Nat
  sprites_mask : List Nat
  sprites_colour : List Nat
  sprite_predecrypted : Nat
  has_decrypted : Nat
  deriving DecidableEq, Repr

/-- `pgm2_state::common_encryption_init` (titles whose internal firmware
supplies the keys at runtime): iga decoders with zero base keys over the
sprite-mask region, colour decode over the sprite-colour region, program
decryption deferred (`m_has_decrypted = 0`). -/
def common_encryption_init (s : Regions) : Regions :=
  let m := iga_u12_decode s.sprites_mask 0x0000
  let m := iga_u16_decode m 0x0000
  let c := sprite_colour_decode s.sprites_colour
  { s with sprites_mask := m, sprite_predecrypted := 0,
           sprites_colour := c, has_decrypted := 0 }

/-- `DRIVER_INIT_MEMBER(pgm2_state, ddpdojh)`: iga decoders with keys
`0x1e96` / `0x869c` over the sprite-mask region, colour decode over the
sprite-colour region, then program-ROM decryption with `ddpdoj_key`
(modelled by the function argument). -/
def init_ddpdojh (ddpdoj_decrypt : List Nat → List Nat) (s : Regions) : Regions :=
  let m := iga_u12_decode s.sprites_mask 0x1e96
  let m := iga_u16_decode m 0x869c
  let c := sprite_colour_decode s.sprites_colour
  { s with sprites_mask := m, sprite_predecrypted := 1,
           sprites_colour := c, user1 := ddpdoj_decrypt s.user1, has_decrypted := 1 }

/-- `DRIVER_INIT_MEMBER(pgm2_state, kov3)`: keys `0x956d` / `0x3d17`,
program-ROM decryption with `kov3_key`. -/
def init_kov3 (kov3_decrypt : List Nat → List Nat) (s : Regions) : Regions :=
  let m := iga_u12_decode s.sprites_mask 0x956d
  let m := iga_u16_decode m 0x3d17
  let c := sprite_colour_decode s.sprites_colour
  { s with sprites_mask := m, sprite_predecrypted := 1,
           sprites_colour := c, user1 := kov3_decrypt s.user1, has_decrypted := 1 }

/-- `DRIVER_INIT_MEMBER(pgm2_state, kov3_104)`: module-layer transform with
`(0x18ec71, 0xb89d)` first, then the kov3 init. -/
def init_kov3_104 (kov3_decrypt : List Nat → List Nat) (s : Regions) : Regions :=
  init_kov3 kov3_decrypt
    { s with user1 := decrypt_kov3_module 0x18ec71 0xb89d s.user1 }

/-! ## Shared dual-bank RAM and the MCU protocol emulator -/

/-- A pending completion delay, as it is handed to `m_mcu_timer->adjust`:
either `attotime::from_msec(d)` (command dispatch) or
`attotime::from_usec(d)` (acknowledge path). -/
inductive Attotime where
  | fromMsec (d : Nat)
  | fromUsec (d : Nat)
  deriving DecidableEq, Repr

/-- Pointwise update of a byte/word store. -/
def upd (f : Nat → Nat) (i v : Nat) : Nat → Nat :=
  fun j => if j = i then v else f j

/-- Pointwise update of the card-slot array. -/
def updCard (f : Nat → Option (Nat → Nat)) (i : Nat) (v : Option (Nat → Nat)) :
    Nat → Option (Nat → Nat) :=
  fun j => if j = i then v else f j

/-- Physical ShareRAM index used by the main processor:
`offset + (m_share_bank & 1) * 128` (`shareram_r` / `shareram_w`). -/
def mainShareIndex (bank o : Nat) : Nat := o + (bank &&& 1) * 128

/-- Physical ShareRAM index used by the MCU-side accesses (`0xe1` fill and
`0xc2`/`0xc3` card copies): `i + (~m_share_bank & 1) * 128`; on bit 0 the
C complement is `(bank & 1) ^^^ 1`. -/
def mcuShareIndex (bank i : Nat) : Nat := i + ((bank &&& 1) ^^^ 1) * 128

/-- State owned by the MCU protocol emulator and the shared RAM.
`regs` is `m_mcu_regs[8]` (only indices 0..7 are used), `shareram` is
`m_shareram[256]`, `cards` is `m_memcard_device[4]` with `none` for an
absent card (`present() == -1`) and `some f` for contents `f`; `timer`
records the last `m_mcu_timer->adjust` delay, `logCount` the number of
`logerror` lines emitted. -/
structure Mcu where
  regs : Nat → Nat
  result0 : Nat
  result1 : Nat
  lastCmd : Nat
  shareram : Nat → Nat
  shareBank : Nat
  cards : Nat → Option (Nat → Nat)
  timer : Option Attotime
  logCount : Nat

/-- `pgm2_state::shareram_r`. -/
def shareram_r (offset : Nat) (s : Mcu) : Nat :=
  s.shareram (mainShareIndex s.shareBank offset)

/-- `pgm2_state::shareram_w`. -/
def shareram_w (offset data : Nat) (s : Mcu) : Mcu :=
  { s with shareram := upd s.shareram (mainShareIndex s.shareBank offset) data }

/-- Common tail of the `is_command` dispatch: pack the dispatched `status`
byte into bits 16..23 of mailbox register 3 and arm the completion timer for
the dispatched `delay` in msec. -/
def mcu_finish : Mcu × Nat × Nat → Mcu
  | (s1, status, delay) =>
    { s1 with
      regs := upd s1.regs 3 ((s1.regs 3 &&& 0xff00ffff) ||| (status <<< 16)),
      timer := some (Attotime.fromMsec delay) }

/-- `pgm2_state::mcu_command` with `is_command = true`: dispatch on the low
command byte of register 0, then pack `status` into bits 16..23 of register 3
and arm the completion timer for `delay` msec. -/
def mcu_command_issue (s : Mcu) : Mcu :=
  let cmd := s.regs 0 &&& 0xff
  let arg1 := (s.regs 0 >>> 8) &&& 0xff
  let arg2 := (s.regs 0 >>> 16) &&& 0xff
  let arg3 := (s.regs 0 >>> 24) &&& 0xff
  let s0 : Mcu := { s with lastCmd := cmd }
  mcu_finish <|
    if cmd = 0xf6 then -- get result
      ({ s0 with regs := upd (upd s0.regs 3 s0.result0) 4 s0.result1, lastCmd := 0 },
       0xf7, 1)
    else if cmd = 0xe0 then -- command port test
      ({ s0 with result0 := s0.regs 0, result1 := s0.regs 1 }, 0xf7, 30)
    else if cmd = 0xe1 then -- shared ram access
      let mode := (s0.regs 0 >>> 16) &&& 0xff
      let dat := (s0.regs 0 >>> 24) &&& 0xff
      let sh := if mode = 2 then
          (List.range 128).foldl (fun m i => upd m (mcuShareIndex s0.shareBank i) dat)
            s0.shareram
        else s0.shareram
      ({ s0 with shareram := sh, result0 := cmd, result1 := 0 }, 0xf7, 1)
    else if cmd = 0xc0 then -- check card presence
      ({ s0 with result0 := cmd },
       if (s0.cards (arg1 &&& 3)).isNone then 0xf4 else 0xf7, 1)
    else if cmd = 0xc1 then -- check ready/busy
      ({ s0 with result0 := cmd }, 0xf7, 1)
    else if cmd = 0xc2 then -- read card data into shared ram
      let sh := (List.range arg3).foldl (fun m i =>
          match s0.cards (arg1 &&& 3) with
          | some card => upd m (mcuShareIndex s0.shareBank i) (card (arg2 + i))
          | none => m) s0.shareram
      ({ s0 with shareram := sh, result0 := cmd }, 0xf7, 1)
    else if cmd = 0xc3 then -- save shared ram data to card
      let cs := (List.range arg3).foldl (fun cs i =>
          match cs (arg1 &&& 3) with
          | some card =>
              updCard cs (arg1 &&& 3)
                (some (upd card (arg2 + i) (s0.shareram (mcuShareIndex s0.shareBank i))))
          | none => cs) s0.cards
      ({ s0 with cards := cs, result0 := cmd }, 0xf7, 1)
    else if cmd = 0xc7 then -- get card ID
      ({ s0 with result1 := 0xf81f0000, result0 := cmd }, 0xf7, 1)
    else if cmd = 0xc8 then -- write single byte to card
      let cs := match s0.cards (arg1 &&& 3) with
        | some card => updCard s0.cards (arg1 &&& 3) (some (upd card arg2 arg3))
        | none => s0.cards
      ({ s0 with cards := cs, result0 := cmd }, 0xf7, 1)
    else if cmd = 0xc4 ∨ cmd = 0xc5 ∨ cmd = 0xc6 ∨ cmd = 0xc9 then -- stubs
      ({ s0 with result0 := cmd }, 0xf7, 1)
    else -- unknown command
      ({ s0 with logCount := s0.logCount + 1 }, 0xf4, 1)

/-- `pgm2_state::mcu_command` with `is_command = false` (acknowledge): if a
command is pending, set the "command done and return data" status `0xf2`
into bits 16..23 of register 3, arm a 100-usec timer, and clear the pending
command; otherwise do nothing. -/
def mcu_command_ack (s : Mcu) : Mcu :=
  if s.lastCmd ≠ 0 then
    { s with
      regs := upd s.regs 3 ((s.regs 3 &&& 0xff00ffff) ||| 0x00f20000),
      timer := some (Attotime.fromUsec 100),
      lastCmd := 0 }
  else s

/-- `pgm2_state::mcu_r`. -/
def mcu_r (offset : Nat) (s : Mcu) : Nat :=
  s.regs ((offset >>> 15) &&& 7)

/-- `pgm2_state::mcu_w`: `COMBINE_DATA(&m_mcu_regs[reg])` with
`reg = (offset >> 15) & 7`; a nonzero register 2 issues a command, a nonzero
register 5 acknowledges. -/
def mcu_w (offset data memMask : Nat) (s : Mcu) : Mcu :=
  let reg := (offset >>> 15) &&& 7
  let s1 : Mcu := { s with regs := upd s.regs reg (combineData (s.regs reg) data memMask) }
  let s2 := if reg = 2 ∧ s1.regs 2 ≠ 0 then mcu_command_issue s1 else s1
  if reg = 5 ∧ s2.regs 5 ≠ 0 then mcu_command_ack s2 else s2


def witnessE0 : Mcu :=
  { regs := fun j => if j = 0 then 0xabcd11e0 else if j = 1 then 7 else 0,
    result0 := 0, result1 := 0, lastCmd := 0,
    shareram := fun _ => 0, shareBank := 0, cards := fun _ => none,
    timer := none, logCount := 0 }

def stateF6 : Mcu :=
  { regs := fun j => if j = 0 then 0xf6 else 0,
    result0 := 0, result1 := 5, lastCmd := 3,
    shareram := fun _ => 0, shareBank := 0, cards := fun _ => none,
    timer := none, logCount := 0 }

def stateFF : Mcu :=
  { regs := fun j => if j = 0 then 0xff else 0,
    result0 := 0x1234, result1 := 0x5678, lastCmd := 0,
    shareram := fun _ => 0, shareBank := 0, cards := fun _ => none,
    timer := none, logCount := 41 }

def stateC2alias : Mcu :=
  { regs := fun j => if j = 0 then 0x810000c2 else 0,
    result0 := 0, result1 := 0, lastCmd := 0,
    shareram := fun _ => 0, shareBank := 1,
    cards := fun j => if j = 0 then some (fun _ => 0xaa) else none,
    timer := none, logCount := 0 }

def stateBank : Mcu :=
  { regs := fun _ => 0, result0 := 0, result1 := 0, lastCmd := 0,
    shareram := fun a => a, shareBank := 1, cards := fun _ => none,
    timer := none, logCount := 0 }

def stateAckIdle : Mcu :=
  { regs := fun _ => 0, result0 := 0, result1 := 0, lastCmd := 0,
    shareram := fun _ => 0, shareBank := 0, cards := fun _ => none,
    timer := none, logCount := 0 }

def stateAckPending : Mcu :=
  { regs := fun _ => 0, result0 := 0, result1 := 0, lastCmd := 3,
    shareram := fun _ => 0, shareBank := 0, cards := fun _ => none,
    timer := none, logCount := 0 }

def stateC9w : Mcu :=
  { regs := fun j => if j = 0 then 0x020000c2 else 0,
    result0 := 0, result1 := 0, lastCmd := 0,
    shareram := fun _ => 7, shareBank := 0,
    cards := fun j => if j = 0 then some (fun off => off + 50) else none,
    timer := none, logCount := 0 }

def regionsC8 : Regions :=
  { user1 := [], sprites_mask := [],
    sprites_colour := [0, 0], sprite_predecrypted := 0, has_decrypted := 0 }

/-! ## Theorems -/

theorem bitswap_lt (x : Nat) (bs : List Nat) : bitswap x bs < 2 ^ bs.length := by
  induction bs with
  | nil => simp [bitswap]
  | cons b bs ih =>
    apply Nat.lt_pow_two_of_testBit
    intro i hi
    simp only [bitswap, Nat.testBit_or, Nat.testBit_shiftLeft]
    have h1 : ((x >>> b) &&& 1) < 2 := by
      have := Nat.and_one_is_mod (x >>> b)
      omega
    have h2 : Nat.testBit ((x >>> b) &&& 1) (i - bs.length) = false := by
      apply Nat.testBit_lt_two_pow
      calc ((x >>> b) &&& 1) < 2 := h1
        _ = 2 ^ 1 := by norm_num
        _ ≤ 2 ^ (i - bs.length) := by
            apply Nat.pow_le_pow_right (by norm_num)
            simp only [List.length_cons] at hi
            omega
    have h3 : Nat.testBit (bitswap x bs) i = false := by
      apply Nat.testBit_lt_two_pow
      calc bitswap x bs < 2 ^ bs.length := ih
        _ ≤ 2 ^ i := by
            apply Nat.pow_le_pow_right (by norm_num)
            simp only [List.length_cons] at hi
            omega
    rw [Nat.and_one_is_mod] at h2
    simp [h2, h3]

/-- Bit `j` of `bitswap x bs` is bit `bs[bs.length - 1 - j]` of `x` (the list is
written most-significant-bit first). -/
theorem testBit_bitswap (x : Nat) (bs : List Nat) (j : Nat) :
    (bitswap x bs).testBit j =
      if j < bs.length then x.testBit (bs.getD (bs.length - 1 - j) 0) else false := by
  induction bs with
  | nil => simp [bitswap]
  | cons b bs ih =>
    simp only [bitswap, Nat.testBit_or, Nat.testBit_shiftLeft, List.length_cons]
    rcases Nat.lt_trichotomy j bs.length with hj | hj | hj
    · have hge : decide (j ≥ bs.length) = false := by simp; omega
      rw [hge]
      simp only [Bool.false_and, Bool.false_or]
      rw [ih]
      have hlt : j < bs.length := hj
      have hlt1 : j < bs.length + 1 := by omega
      simp only [hlt, hlt1, if_true]
      have hidx : bs.length + 1 - 1 - j = (bs.length - 1 - j) + 1 := by omega
      rw [hidx]
      rfl
    · subst hj
      have hge : decide (bs.length ≥ bs.length) = true := by simp
      rw [hge]
      simp only [Bool.true_and]
      have hlow : Nat.testBit (bitswap x bs) bs.length = false := by
        apply Nat.testBit_lt_two_pow (bitswap_lt x bs)
      rw [hlow]
      simp only [Bool.or_false, Nat.sub_self, Nat.testBit_and, Nat.testBit_shiftRight]
      have h1 : Nat.testBit 1 (bs.length - bs.length) = true := by
        simp [Nat.sub_self]
      have hlt1 : bs.length < bs.length + 1 := by omega
      simp only [Nat.sub_self, hlt1, if_true]
      have hidx : bs.length + 1 - 1 - bs.length = 0 := by omega
      rw [hidx]
      simp [Nat.testBit_to_div_mod]
    · have hge : decide (j ≥ bs.length) = true := by simp; omega
      rw [hge]
      simp only [Bool.true_and]
      have hhi : Nat.testBit ((x >>> b) &&& 1) (j - bs.length) = false := by
        apply Nat.testBit_lt_two_pow
        have := Nat.and_one_is_mod (x >>> b)
        have h2 : ((x >>> b) &&& 1) < 2 := by omega
        calc ((x >>> b) &&& 1) < 2 := h2
          _ = 2 ^ 1 := by norm_num
          _ ≤ 2 ^ (j - bs.length) := by
              apply Nat.pow_le_pow_right (by norm_num)
              omega
      have hlow : Nat.testBit (bitswap x bs) j = false := by
        apply Nat.testBit_lt_two_pow
        calc bitswap x bs < 2 ^ bs.length := bitswap_lt x bs
          _ ≤ 2 ^ j := by
              apply Nat.pow_le_pow_right (by norm_num)
              omega
      have hnlt : ¬ (j < bs.length + 1) := by omega
      rw [Nat.and_one_is_mod] at hhi
      simp [hhi, hlow, hnlt]

/-- C1: writing the decrypt-trigger register twice in succession leaves the
program-ROM buffer in the same state as writing it once: the first write (with
the DecryptFlag clear) performs the in-place decryption and sets
`m_has_decrypted`, and every subsequent trigger write on a state whose flag is
set is a no-op that mutates neither the buffer nor any other state.  Proved
for every cipher `d` standing for `igs036_decryptor::decrypter_rom`. -/
theorem claim_C1_trigger_idempotent (d : List Nat → List Nat → List Nat)
    (s : DecryptState) (h : s.has_decrypted = 0) :
    (encryption_do_w d s).user1 = d s.encryption_table s.user1 ∧
    (encryption_do_w d s).has_decrypted = 1 ∧
    encryption_do_w d (encryption_do_w d s) = encryption_do_w d s ∧
    (∀ t : DecryptState, t.has_decrypted ≠ 0 → encryption_do_w d t = t) := by
  refine ⟨?_, ?_, ?_, ?_⟩
  · simp [encryption_do_w, h]
  · simp [encryption_do_w, h]
  · simp [encryption_do_w, h]
  · intro t ht
    simp [encryption_do_w, ht]

theorem claim_C1_trigger_idempotent_witness :
    encryption_do_w (fun t b => t ++ b)
        (encryption_do_w (fun t b => t ++ b) ⟨[1, 2], [3], 0⟩)
      = encryption_do_w (fun t b => t ++ b) ⟨[1, 2], [3], 0⟩ :=
  (claim_C1_trigger_idempotent (fun t b => t ++ b) ⟨[1, 2], [3], 0⟩ rfl).2.2.1

theorem getD_rev32bits : ∀ k, k < 32 → rev32bits.getD k 0 = k := by decide

/-- C2: on a full-width write of `v` to the raw sprite-key register, if
`predecrypted` is false the real key is immediately recomputed as the full
32-bit bit-order reversal of `v XOR 0x90055555` (bit `j` of the real key is
bit `31 - j` of the masked raw key); if `predecrypted` is true the real key
is unchanged by the write, whatever `v` is. -/
theorem claim_C2_sprite_key (s : SpriteKeyState) (v : Nat) (hv : v < 4294967296) :
    (s.sprite_predecrypted = 0 →
      (sprite_encryption_w v 0xffffffff s).realspritekey
        = bitswap (v ^^^ 0x90055555) rev32bits ∧
      (sprite_encryption_w v 0xffffffff s).spritekey = v ∧
      ∀ j, j < 32 →
        ((sprite_encryption_w v 0xffffffff s).realspritekey).testBit j
          = (v ^^^ 0x90055555).testBit (31 - j)) ∧
    (s.sprite_predecrypted ≠ 0 →
      (sprite_encryption_w v 0xffffffff s).realspritekey = s.realspritekey) := by
  have hmask : combineData s.spritekey v 0xffffffff = v := by
    have h32 : (0xffffffff : Nat) = 2 ^ 32 - 1 := by norm_num
    simp only [combineData, Nat.xor_self, Nat.and_zero, Nat.zero_or, h32,
      Nat.and_pow_two_sub_one_eq_mod]
    exact Nat.mod_eq_of_lt hv
  constructor
  · intro hpred
    have hw : sprite_encryption_w v 0xffffffff s
        = { s with spritekey := v,
                   realspritekey := bitswap (v ^^^ 0x90055555) rev32bits } := by
      simp [sprite_encryption_w, hpred, hmask]
    refine ⟨by rw [hw], by rw [hw], ?_⟩
    intro j hj
    rw [hw]
    show (bitswap (v ^^^ 0x90055555) rev32bits).testBit j = _
    rw [testBit_bitswap]
    have hlen : rev32bits.length = 32 := by rfl
    rw [hlen]
    simp only [hj, if_true]
    rw [getD_rev32bits (31 - j) (by omega)]
  · intro hpred
    simp [sprite_encryption_w, hpred]

theorem claim_C2_sprite_key_witness :
    (sprite_encryption_w 0 0xffffffff ⟨0, 0, 0⟩).realspritekey
      = bitswap 0x90055555 rev32bits :=
  ((claim_C2_sprite_key ⟨0, 0, 0⟩ 0 (by norm_num)).1 rfl).1

theorem getD_colourBits_lt : ∀ k, k < 16 → colourBits.getD (15 - k) 0 < 16 := by decide

theorem getD_colourBits_invol :
    ∀ k, k < 16 → colourBits.getD (15 - colourBits.getD (15 - k) 0) 0 = k := by decide

/-- The fixed 16-bit permutation of `sprite_colour_decode` is self-inverse
on 16-bit words. -/
theorem colour_word_involution (w : Nat) (hw : w < 65536) :
    colour_word (colour_word w) = w := by
  apply Nat.eq_of_testBit_eq
  intro j
  by_cases hj : j < 16
  · have h1 : (colour_word (colour_word w)).testBit j
        = (colour_word w).testBit (colourBits.getD (15 - j) 0) := by
      show (bitswap (colour_word w) colourBits).testBit j = _
      rw [testBit_bitswap]
      have hlen : colourBits.length = 16 := by rfl
      rw [hlen]
      simp [hj]
    have h2 : (colour_word w).testBit (colourBits.getD (15 - j) 0)
        = w.testBit (colourBits.getD (15 - colourBits.getD (15 - j) 0) 0) := by
      show (bitswap w colourBits).testBit _ = _
      rw [testBit_bitswap]
      have hlen : colourBits.length = 16 := by rfl
      rw [hlen, if_pos (getD_colourBits_lt j hj)]
    rw [h1, h2, getD_colourBits_invol j hj]
  · have h1 : (colour_word (colour_word w)).testBit j = false := by
      apply Nat.testBit_lt_two_pow
      calc colour_word (colour_word w) < 2 ^ colourBits.length := bitswap_lt _ _
        _ ≤ 2 ^ j := by
            apply Nat.pow_le_pow_right (by norm_num)
            show 16 ≤ j
            omega
    have h2 : w.testBit j = false := by
      apply Nat.testBit_lt_two_pow
      calc w < 65536 := hw
        _ = 2 ^ 16 := by norm_num
        _ ≤ 2 ^ j := by
            apply Nat.pow_le_pow_right (by norm_num)
            omega
    rw [h1, h2]

/-- C10: the colour repack is an involution: applying `sprite_colour_decode`
twice to any buffer of 16-bit words restores the original contents exactly;
and it is not idempotent: one application differs from two on a word where
the permutation moves a set bit (word `0x0008`). -/
theorem claim_C10_colour_involution (rom : List Nat) (h : ∀ w ∈ rom, w < 65536) :
    sprite_colour_decode (sprite_colour_decode rom) = rom ∧
    sprite_colour_decode (sprite_colour_decode [0x0008]) ≠ sprite_colour_decode [0x0008] := by
  constructor
  · simp only [sprite_colour_decode, List.map_map]
    have hcong : List.map (colour_word ∘ colour_word) rom = List.map id rom :=
      List.map_congr_left (fun w hw => colour_word_involution w (h w hw))
    rw [hcong, List.map_id]
  · decide

theorem claim_C10_colour_involution_witness :
    sprite_colour_decode (sprite_colour_decode [0x0008, 0x1234]) = [0x0008, 0x1234] :=
  (claim_C10_colour_involution [0x0008, 0x1234] (by decide)).1

theorem combineData_full (old v : Nat) (hv : v < 4294967296) :
    combineData old v 0xffffffff = v := by
  have h32 : (0xffffffff : Nat) = 2 ^ 32 - 1 := by norm_num
  simp only [combineData, Nat.xor_self, Nat.and_zero, Nat.zero_or, h32,
    Nat.and_pow_two_sub_one_eq_mod]
  exact Nat.mod_eq_of_lt hv

theorem foldl_upd_preserve (L : List Nat) (f : Nat → Nat) (idx val : Nat → Nat)
    (a : Nat) (h : ∀ i ∈ L, idx i ≠ a) :
    (L.foldl (fun m i => upd m (idx i) (val i)) f) a = f a := by
  induction L generalizing f with
  | nil => rfl
  | cons b L ih =>
    simp only [List.foldl_cons]
    rw [ih _ (fun i hi => h i (List.mem_cons_of_mem b hi))]
    have hb : idx b ≠ a := h b (List.mem_cons_self b L)
    unfold upd
    rw [if_neg (fun hab => hb hab.symm)]

theorem mainShareIndex_ne_mcuShareIndex (b o i : Nat) (ho : o < 128) (hi : i < 128) :
    mainShareIndex b o ≠ mcuShareIndex b i := by
  unfold mainShareIndex mcuShareIndex
  rw [Nat.and_one_is_mod]
  rcases Nat.mod_two_eq_zero_or_one b with h | h <;> rw [h] <;> simp <;> omega

/-- C4: issuing command `0xe0` echoes the command register into `result0` and
the auxiliary register into `result1` exactly, and arms the completion timer
for 30 time-units (`attotime::from_msec(30)`), so completion is not signalled
before that delay. -/
theorem claim_C4_e0_echo (s : Mcu) (h : s.regs 0 &&& 0xff = 0xe0) :
    (mcu_command_issue s).result0 = s.regs 0 ∧
    (mcu_command_issue s).result1 = s.regs 1 ∧
    (mcu_command_issue s).timer = some (Attotime.fromMsec 30) := by
  simp [mcu_command_issue, mcu_finish, h, upd]

theorem claim_C4_e0_echo_witness :
    (mcu_command_issue witnessE0).result0 = 0xabcd11e0 ∧
    (mcu_command_issue witnessE0).result1 = 7 ∧
    (mcu_command_issue witnessE0).timer = some (Attotime.fromMsec 30) :=
  claim_C4_e0_echo witnessE0 (by decide)

/-- C5 as stated is false: after dispatching `0xf6` the status byte `0xf7` is
packed into bits 16..23 of register 3, so register 3 does not equal the
copied `result0` (here `result0 = 0` but register 3 ends at `0x00f70000`). -/
theorem claim_C5_counterexample :
    ¬ ((mcu_command_issue stateF6).regs 3 = stateF6.result0 ∧
       (mcu_command_issue stateF6).regs 4 = stateF6.result1 ∧
       (mcu_command_issue stateF6).lastCmd = 0) := by
  decide

/-- C5 (amended): dispatching `0xf6` copies `result1` into register 4 and
clears `lastCommand`, while register 3 receives `result0` with the accepted
status `0xf7` packed over its bits 16..23; `result0`/`result1` themselves are
unchanged and the default 1-unit completion timer is armed. -/
theorem claim_C5_f6_result_copy (s : Mcu) (h : s.regs 0 &&& 0xff = 0xf6) :
    (mcu_command_issue s).regs 4 = s.result1 ∧
    (mcu_command_issue s).lastCmd = 0 ∧
    (mcu_command_issue s).regs 3 = (s.result0 &&& 0xff00ffff) ||| (0xf7 <<< 16) ∧
    (mcu_command_issue s).result0 = s.result0 ∧
    (mcu_command_issue s).result1 = s.result1 ∧
    (mcu_command_issue s).timer = some (Attotime.fromMsec 1) := by
  simp only [mcu_command_issue, mcu_finish, h]
  norm_num [upd]

theorem claim_C5_f6_result_copy_witness :
    (mcu_command_issue stateF6).regs 4 = 5 ∧
    (mcu_command_issue stateF6).lastCmd = 0 ∧
    (mcu_command_issue stateF6).regs 3 = 0x00f70000 :=
  let h := claim_C5_f6_result_copy stateF6 (by decide)
  ⟨h.1, h.2.1, by rw [h.2.2.1]; decide⟩

/-- C6: issuing a command byte outside the dispatch table completes rather
than failing: the error status `0xf4` is packed into bits 16..23 of register
3, `result0`/`result1` keep their previous values, exactly one log line is
emitted, and the completion timer is armed (default 1 unit). -/
theorem claim_C6_unknown_command (s : Mcu)
    (h : (s.regs 0 &&& 0xff) ∉
      ([0xf6, 0xe0, 0xe1, 0xc0, 0xc1, 0xc2, 0xc3, 0xc7, 0xc8, 0xc4, 0xc5, 0xc6,
        0xc9] : List Nat)) :
    (mcu_command_issue s).regs 3 = (s.regs 3 &&& 0xff00ffff) ||| (0xf4 <<< 16) ∧
    (mcu_command_issue s).result0 = s.result0 ∧
    (mcu_command_issue s).result1 = s.result1 ∧
    (mcu_command_issue s).logCount = s.logCount + 1 ∧
    (mcu_command_issue s).timer = some (Attotime.fromMsec 1) := by
  simp only [List.mem_cons, List.not_mem_nil, or_false, not_or] at h
  obtain ⟨h1, h2, h3, h4, h5, h6, h7, h8, h9, h10, h11, h12, h13⟩ := h
  simp only [mcu_command_issue, mcu_finish, if_neg h1, if_neg h2, if_neg h3,
    if_neg h4, if_neg h5, if_neg h6, if_neg h7, if_neg h8, if_neg h9]
  rw [if_neg]
  · norm_num [upd]
  · simp [h10, h11, h12, h13]

theorem claim_C6_unknown_command_witness :
    (mcu_command_issue stateFF).regs 3 = 0x00f40000 ∧
    (mcu_command_issue stateFF).result0 = 0x1234 ∧
    (mcu_command_issue stateFF).result1 = 0x5678 ∧
    (mcu_command_issue stateFF).logCount = 42 ∧
    (mcu_command_issue stateFF).timer = some (Attotime.fromMsec 1) :=
  let h := claim_C6_unknown_command stateFF (by decide)
  ⟨by rw [h.1]; decide, h.2.1, h.2.2.1, h.2.2.2.1, h.2.2.2.2⟩

theorem foldl_keep (L : List Nat) (f : Nat → Nat) :
    L.foldl (fun m (_ : Nat) => m) f = f := by
  induction L generalizing f with
  | nil => rfl
  | cons b L ih =>
    simp only [List.foldl_cons]
    exact ih f

/-- The `0xe1` dispatch mutates the shared RAM only at the MCU-side bank
indices `mcuShareIndex bank j`, `j < 128` (whether or not the mode byte
selects the fill). -/
theorem issue_e1_fill_preserve (s : Mcu) (a : Nat)
    (hc : s.regs 0 &&& 0xff = 0xe1)
    (ha : ∀ j, j < 128 → a ≠ mcuShareIndex s.shareBank j) :
    (mcu_command_issue s).shareram a = s.shareram a := by
  simp only [mcu_command_issue, mcu_finish, hc]
  norm_num
  by_cases hm : (s.regs 0 >>> 16) &&& 0xff = 2
  · simp only [hm, if_true]
    refine foldl_upd_preserve _ _ _ _ _ ?_
    intro j hj
    exact (ha j (List.mem_range.mp hj)).symm
  · simp [hm]

/-- The `0xc2` dispatch mutates the shared RAM only at the MCU-side indices
`mcuShareIndex bank j` for `j < arg3`. -/
theorem issue_c2_preserve (s : Mcu) (a : Nat)
    (hc : s.regs 0 &&& 0xff = 0xc2)
    (ha : ∀ j, j < (s.regs 0 >>> 24) &&& 0xff → a ≠ mcuShareIndex s.shareBank j) :
    (mcu_command_issue s).shareram a = s.shareram a := by
  cases hcard : s.cards (((s.regs 0 >>> 8) &&& 0xff) &&& 3) with
  | none =>
    simp only [mcu_command_issue, mcu_finish, hc, hcard]
    norm_num [foldl_keep]
  | some card =>
    simp only [mcu_command_issue, mcu_finish, hc, hcard]
    norm_num
    refine foldl_upd_preserve _ _ _ _ _ ?_
    intro j hj
    exact (ha j (List.mem_range.mp hj)).symm

/-- C3 as stated is false for the card copies: with bank selector 1 the main
processor addresses the upper half, and a `0xc2` copy of 129 bytes into the
opposite (lower) bank runs past it and overwrites physical byte 128 — the
main-processor byte at logical offset 0 — so the two agents do alias. -/
theorem claim_C3_counterexample :
    ¬ ((mcu_command_issue stateC2alias).shareram
          (mainShareIndex stateC2alias.shareBank 0)
        = stateC2alias.shareram (mainShareIndex stateC2alias.shareBank 0)) := by
  decide

/-- C3 (amended): a main-processor ShareRAM access at logical offset
`o < 128` touches exactly physical byte `o + (bank & 1) * 128`, every
MCU-side access (`0xe1` fill, `0xc2`/`0xc3` copies) uses indices
`i + ((bank & 1) ^^^ 1) * 128`, and the two never alias for accesses within
the 128-byte banks — for the card copies whenever the length argument is at
most 128 (the fill always writes exactly 128 bytes). -/
theorem claim_C3_bank_addressing (s : Mcu) (o i d : Nat) (ho : o < 128) (hi : i < 128) :
    shareram_r o s = s.shareram (o + (s.shareBank &&& 1) * 128) ∧
    (shareram_w o d s).shareram (o + (s.shareBank &&& 1) * 128) = d ∧
    (∀ a, a ≠ mainShareIndex s.shareBank o →
      (shareram_w o d s).shareram a = s.shareram a) ∧
    mcuShareIndex s.shareBank i = i + ((s.shareBank &&& 1) ^^^ 1) * 128 ∧
    mainShareIndex s.shareBank o ≠ mcuShareIndex s.shareBank i ∧
    (s.regs 0 &&& 0xff = 0xe1 →
      (mcu_command_issue s).shareram (mainShareIndex s.shareBank o)
        = s.shareram (mainShareIndex s.shareBank o)) ∧
    (s.regs 0 &&& 0xff = 0xc2 → (s.regs 0 >>> 24) &&& 0xff ≤ 128 →
      (mcu_command_issue s).shareram (mainShareIndex s.shareBank o)
        = s.shareram (mainShareIndex s.shareBank o)) := by
  refine ⟨rfl, by simp [shareram_w, mainShareIndex, upd], ?_, rfl,
    mainShareIndex_ne_mcuShareIndex _ _ _ ho hi, ?_, ?_⟩
  · intro a ha
    simp [shareram_w, upd, ha]
  · intro hc
    exact issue_e1_fill_preserve s _ hc
      (fun j hj => mainShareIndex_ne_mcuShareIndex _ _ _ ho hj)
  · intro hc h3
    refine issue_c2_preserve s _ hc ?_
    intro j hj
    exact mainShareIndex_ne_mcuShareIndex _ _ _ ho (by omega)

theorem claim_C3_bank_addressing_witness :
    shareram_r 5 stateBank = 133 ∧
    mainShareIndex stateBank.shareBank 5 ≠ mcuShareIndex stateBank.shareBank 7 :=
  let h := claim_C3_bank_addressing stateBank 5 7 0 (by decide) (by decide)
  ⟨h.1.trans (by decide), h.2.2.2.2.1⟩

/-- C7 as stated is false in the no-pending case: the write itself lands in
register 5 through `COMBINE_DATA`, so writing 1 to the acknowledge register
with `lastCommand = 0` changes register 5 from 0 to 1 — not all registers
are left unchanged. -/
theorem claim_C7_counterexample :
    ¬ ((mcu_w 0x28000 1 0xffffffff stateAckIdle).regs 5 = stateAckIdle.regs 5) := by
  decide

/-- C7 (amended): a full-width nonzero write `v` to the acknowledge register
(register 5, address offset `0x28000`): if `lastCommand` is nonzero the
status field of register 3 is overwritten with the done code `0xf2`, a
100-usec completion timer is armed, and `lastCommand` is cleared; if
`lastCommand` is 0 the write only stores `v` into register 5 and leaves all
other registers and all other state unchanged. -/
theorem claim_C7_ack_semantics (s : Mcu) (v : Nat) (hv : v ≠ 0)
    (hv32 : v < 4294967296) :
    (s.lastCmd ≠ 0 →
      (mcu_w 0x28000 v 0xffffffff s).regs 3
          = (s.regs 3 &&& 0xff00ffff) ||| 0x00f20000 ∧
      (mcu_w 0x28000 v 0xffffffff s).timer = some (Attotime.fromUsec 100) ∧
      (mcu_w 0x28000 v 0xffffffff s).lastCmd = 0 ∧
      (mcu_w 0x28000 v 0xffffffff s).regs 5 = v) ∧
    (s.lastCmd = 0 →
      (mcu_w 0x28000 v 0xffffffff s).regs 5 = v ∧
      (∀ i, i ≠ 5 → (mcu_w 0x28000 v 0xffffffff s).regs i = s.regs i) ∧
      (mcu_w 0x28000 v 0xffffffff s).result0 = s.result0 ∧
      (mcu_w 0x28000 v 0xffffffff s).result1 = s.result1 ∧
      (mcu_w 0x28000 v 0xffffffff s).lastCmd = 0 ∧
      (mcu_w 0x28000 v 0xffffffff s).timer = s.timer ∧
      (mcu_w 0x28000 v 0xffffffff s).shareram = s.shareram ∧
      (mcu_w 0x28000 v 0xffffffff s).cards = s.cards ∧
      (mcu_w 0x28000 v 0xffffffff s).logCount = s.logCount) := by
  have hcd : combineData (s.regs 5) v 0xffffffff = v := combineData_full _ _ hv32
  have hreg : ((0x28000 : Nat) >>> 15) &&& 7 = 5 := by rfl
  constructor
  · intro hlast
    simp only [mcu_w, hreg]
    norm_num [upd, hcd, hv, mcu_command_ack, hlast]
  · intro hlast
    have hs : mcu_w 0x28000 v 0xffffffff s = { s with regs := upd s.regs 5 v } := by
      simp only [mcu_w, hreg]
      norm_num [hcd, hv, mcu_command_ack, hlast]
    rw [hs]
    exact ⟨by simp [upd], fun i hi => by simp [upd, hi], rfl, rfl, hlast, rfl, rfl,
      rfl, rfl⟩

theorem claim_C7_ack_semantics_witness :
    (mcu_w 0x28000 9 0xffffffff stateAckPending).lastCmd = 0 ∧
    (mcu_w 0x28000 9 0xffffffff stateAckPending).timer
      = some (Attotime.fromUsec 100) :=
  let h := (claim_C7_ack_semantics stateAckPending 9 (by decide) (by decide)).1
    (by decide)
  ⟨h.2.2.1, h.2.1⟩

/-- C9: the `0xc2`/`0xc3` card copies access the shared RAM exactly at
indices `i + (~bank & 1) * 128` for `i < arg3`; with `arg3 ≤ 128` every such
index stays below 256, and without that bound there are inputs (length 129
with the opposite bank being the upper half) whose index reaches 256, past
the end of the 256-byte array. -/
theorem claim_C9_card_copy_bounds (s : Mcu) (i a : Nat) :
    (s.regs 0 &&& 0xff = 0xc2 →
      (∀ j, j < (s.regs 0 >>> 24) &&& 0xff → a ≠ mcuShareIndex s.shareBank j) →
      (mcu_command_issue s).shareram a = s.shareram a) ∧
    ((s.regs 0 >>> 24) &&& 0xff ≤ 128 → i < (s.regs 0 >>> 24) &&& 0xff →
      mcuShareIndex s.shareBank i < 256) ∧
    (∃ bank len idx, idx < len ∧ len ≤ 255 ∧ 256 ≤ mcuShareIndex bank idx) := by
  refine ⟨fun hc ha => issue_c2_preserve s a hc ha, ?_, ⟨0, 129, 128, ?_, ?_, ?_⟩⟩
  · intro h1 h2
    unfold mcuShareIndex
    rw [Nat.and_one_is_mod]
    rcases Nat.mod_two_eq_zero_or_one s.shareBank with h | h <;> rw [h]
    · have hx : (0 : Nat) ^^^ 1 = 1 := rfl
      rw [hx]; omega
    · have hx : (1 : Nat) ^^^ 1 = 0 := rfl
      rw [hx]; omega
  · norm_num
  · norm_num
  · decide

theorem claim_C9_card_copy_bounds_witness :
    (mcu_command_issue stateC9w).shareram 5 = 7 ∧
    mcuShareIndex stateC9w.shareBank 1 < 256 :=
  let h := claim_C9_card_copy_bounds stateC9w 1 5
  ⟨(h.1 (by decide) (by decide)).trans (by decide),
   h.2.1 (by decide) (by decide)⟩

/-- C8 as stated is false about the sprite-colour region: the positional
decoders are applied only to the sprite-mask region, never to the
sprite-colour region, which only receives the colour repack — shown on a
concrete two-word colour region under the ddpdojh init. -/
theorem claim_C8_counterexample :
    (init_ddpdojh (fun b => b) regionsC8).sprites_colour
      ≠ sprite_colour_decode
          (iga_u16_decode (iga_u12_decode regionsC8.sprites_colour 0x1e96) 0x869c) := by
  decide

/-- C8 (amended): at driver-init time the region transforms are applied in
this fixed order: (1) the optional module-layer transform
`dst[i] = src[i XOR addrMask] XOR dataMask` with title-specific masks (kov3
V104), (2) the positional decoders `iga_u12_decode` then `iga_u16_decode`
over the sprite-mask region only, with title-specific base keys (zero keys
for titles whose internal firmware supplies keys at runtime), and (3) the
colour repack over the sprite-colour region. -/
theorem claim_C8_init_order (d : List Nat → List Nat) (s : Regions) :
    (common_encryption_init s).sprites_mask
        = iga_u16_decode (iga_u12_decode s.sprites_mask 0x0000) 0x0000 ∧
    (common_encryption_init s).sprites_colour = sprite_colour_decode s.sprites_colour ∧
    (common_encryption_init s).sprite_predecrypted = 0 ∧
    (common_encryption_init s).has_decrypted = 0 ∧
    (init_ddpdojh d s).sprites_mask
        = iga_u16_decode (iga_u12_decode s.sprites_mask 0x1e96) 0x869c ∧
    (init_ddpdojh d s).sprites_colour = sprite_colour_decode s.sprites_colour ∧
    (init_ddpdojh d s).user1 = d s.user1 ∧
    (init_ddpdojh d s).sprite_predecrypted = 1 ∧
    (init_ddpdojh d s).has_decrypted = 1 ∧
    (init_kov3_104 d s).user1 = d (decrypt_kov3_module 0x18ec71 0xb89d s.user1) ∧
    (init_kov3_104 d s).sprites_mask
        = iga_u16_decode (iga_u12_decode s.sprites_mask 0x956d) 0x3d17 ∧
    (init_kov3_104 d s).sprites_colour = sprite_colour_decode s.sprites_colour :=
  ⟨rfl, rfl, rfl, rfl, rfl, rfl, rfl, rfl, rfl, rfl, rfl, rfl⟩

end Pgm2
